import Mathlib

/-!
Verification of the keyframe-interpolation and playback-clock engine of the
video-editor frontend (`src/videogen/src/screens/VideoEditor.js`).

The interpolator `getCharacterProps` and the playback-clock pieces
(`updateAnimation`, the footer seek controls) are embedded as executable
Lean definitions over `ℚ` (JavaScript numbers modelled as rationals), and
the specified properties are proved about them.
-/

/-- One animation keyframe: `{ time, x, y, scale, rotation }` as in the
`animation.character.animations` records of the JSON document. -/
structure Keyframe where
  time : ℚ
  x : ℚ
  y : ℚ
  scale : ℚ
  rotation : ℚ
deriving DecidableEq, Repr

/-- The interpolated output record: the four fields the renderer reads. -/
structure InterpolatedProperties where
  x : ℚ
  y : ℚ
  scale : ℚ
  rotation : ℚ
deriving DecidableEq, Repr

/-- Project the four rendered fields out of a keyframe (the exact-hit branch
of `getCharacterProps` returns the whole keyframe record; its consumers read
only `x`, `y`, `scale`, `rotation`). -/
def toProps (k : Keyframe) : InterpolatedProperties :=
  ⟨k.x, k.y, k.scale, k.rotation⟩

/-- The index-scanning loop of `getCharacterProps` (VideoEditor.js lines
128–135): one pass over `animations`, keeping the last index whose `time ≤
currentTime` in `beforeIndex` and the first index whose `time ≥ currentTime`
in `afterIndex`, both initialised to `-1`. -/
def findKeyframeIndicesGo (currentTime : ℚ) :
    Nat → List Keyframe → Int → Int → Int × Int
  | _, [], beforeIndex, afterIndex => (beforeIndex, afterIndex)
  | i, k :: rest, beforeIndex, afterIndex =>
      findKeyframeIndicesGo currentTime (i + 1) rest
        (if k.time ≤ currentTime then (i : Int) else beforeIndex)
        (if currentTime ≤ k.time ∧ afterIndex = -1 then (i : Int) else afterIndex)

/-- The `beforeIndex` / `afterIndex` pair computed by the loop in
`getCharacterProps`, with `-1` as the "not found" sentinel, as in the source. -/
def findKeyframeIndices (animations : List Keyframe) (currentTime : ℚ) : Int × Int :=
  findKeyframeIndicesGo currentTime 0 animations (-1) (-1)

/-- `getCharacterProps` (VideoEditor.js lines 121–166): select the
before/after keyframes for `currentTime`, apply the `-1 → 0` and
`-1 → length - 1` fallbacks, return the before keyframe on an exact time
hit or when both indices coincide, and otherwise linearly interpolate with
`factor = (currentTime - before.time) / (after.time - before.time)`
(guarded to `0` when the time difference is `0`).  Out-of-range index
access (possible only for an empty list) is modelled as `none`. -/
def getCharacterProps (animations : List Keyframe) (currentTime : ℚ) :
    Option InterpolatedProperties :=
  let p := findKeyframeIndices animations currentTime
  let beforeIndex : Int := if p.1 = -1 then 0 else p.1
  let afterIndex : Int := if p.2 = -1 then (animations.length : Int) - 1 else p.2
  match animations[beforeIndex.toNat]?, animations[afterIndex.toNat]? with
  | some before, some after =>
      if before.time = currentTime then some (toProps before)
      else if beforeIndex = afterIndex then some (toProps before)
      else
        let timeDiff := after.time - before.time
        let factor := if timeDiff = 0 then 0 else (currentTime - before.time) / timeDiff
        some { x := before.x + (after.x - before.x) * factor
               y := before.y + (after.y - before.y) * factor
               scale := before.scale + (after.scale - before.scale) * factor
               rotation := before.rotation + (after.rotation - before.rotation) * factor }
  | _, _ => none

/-- The per-tick update of the playback clock (VideoEditor.js lines
102–105): add the elapsed delta to the previous time and wrap to `0` when
the result reaches `duration`. -/
def updateAnimation (duration prevTime deltaTime : ℚ) : ℚ :=
  let newTime := prevTime + deltaTime
  if newTime ≥ duration then 0 else newTime

/-- The `« 10s` footer control (VideoEditor.js line 406):
`setCurrentTime(Math.max(0, currentTime - 10))`. -/
def skipBack (currentTime : ℚ) : ℚ := max 0 (currentTime - 10)

/-- The `10s »` footer control (VideoEditor.js lines 429–431):
`setCurrentTime(Math.min(jsonData.project.duration, currentTime + 10))`. -/
def skipForward (duration currentTime : ℚ) : ℚ := min duration (currentTime + 10)

/-- The `Reset` footer control (VideoEditor.js line 422): `setCurrentTime(0)`. -/
def resetTime : ℚ := 0

/-- State of the playback clock together with its scheduler: `pendingTick`
records whether an animation-frame callback is currently scheduled
(`animationFrameRef` holding a live request in the source). -/
structure ClockState where
  currentTime : ℚ
  isPlaying : Bool
  pendingTick : Bool
deriving DecidableEq, Repr

/-- `play`: `setIsPlaying(true)`; the playback effect (VideoEditor.js lines
95–118) then runs and schedules an animation-frame tick. -/
def play (s : ClockState) : ClockState :=
  { s with isPlaying := true, pendingTick := true }

/-- `pause`: `setIsPlaying(false)`; the playback effect's cleanup
(VideoEditor.js lines 112–116) cancels the scheduled animation-frame tick. -/
def pause (s : ClockState) : ClockState :=
  { s with isPlaying := false, pendingTick := false }

/-- Delivery of one scheduled tick: `updateAnimation` fires only if a
callback is actually scheduled (`requestAnimationFrame` delivers nothing
after `cancelAnimationFrame`); while running it advances `currentTime` by
the wrap rule and reschedules itself (VideoEditor.js lines 97–108). -/
def deliverTick (duration delta : ℚ) (s : ClockState) : ClockState :=
  if s.pendingTick then
    { s with currentTime := updateAnimation duration s.currentTime delta,
             pendingTick := true }
  else s

/-- Delivery of a whole sequence of scheduled ticks with given deltas. -/
def deliverTicks (duration : ℚ) (deltas : List ℚ) (s : ClockState) : ClockState :=
  deltas.foldl (fun st d => deliverTick duration d st) s

/-- The default keyframe list of the demo document (VideoEditor.js lines
26–31), also the example list used by the spec's scenarios. -/
def exampleAnimations : List Keyframe :=
  [⟨0, 10, 50, 1, 0⟩, ⟨30, 70, 50, 6/5, 0⟩, ⟨60, 40, 70, 1, 45⟩, ⟨90, 10, 50, 1, 0⟩]

/-- Index of the last keyframe (in sequence order) whose time is `≤` the
query time; `none` when there is none.  This is what the loop's
`beforeIndex` computes (proved in `findKeyframeIndices_eq`). -/
def lastLeIdx (currentTime : ℚ) : List Keyframe → Option Nat
  | [] => none
  | k :: rest =>
      match lastLeIdx currentTime rest with
      | some j => some (j + 1)
      | none => if k.time ≤ currentTime then some 0 else none

/-- Index of the first keyframe (in sequence order) whose time is `≥` the
query time; `none` when there is none.  This is what the loop's
`afterIndex` computes (proved in `findKeyframeIndices_eq`). -/
def firstGeIdx (currentTime : ℚ) : List Keyframe → Option Nat
  | [] => none
  | k :: rest =>
      if currentTime ≤ k.time then some 0
      else (firstGeIdx currentTime rest).map (· + 1)

/-- The before index `getCharacterProps` ends up using, after the `-1 → 0`
fallback, as a natural number. -/
def beforeIdx (l : List Keyframe) (qt : ℚ) : Nat := (lastLeIdx qt l).getD 0

/-- The after index `getCharacterProps` ends up using, after the
`-1 → length - 1` fallback, as a natural number. -/
def afterIdx (l : List Keyframe) (qt : ℚ) : Nat :=
  (firstGeIdx qt l).getD (l.length - 1)

/-- Total indexing into a keyframe list (in-range positions agree with
`List.get`; used to state properties without dependent indices). -/
def kfAt (l : List Keyframe) (i : Nat) : Keyframe := l.getD i ⟨0, 0, 0, 0, 0⟩

/-- Boolean check that a keyframe list is sorted by time (nondecreasing). -/
def timeSortedB : List Keyframe → Bool
  | [] => true
  | [_] => true
  | k1 :: k2 :: rest => decide (k1.time ≤ k2.time) && timeSortedB (k2 :: rest)

/-- A keyframe list logically ordered by time ascending. -/
def TimeSorted (l : List Keyframe) : Prop := timeSortedB l = true

instance (l : List Keyframe) : Decidable (TimeSorted l) :=
  inferInstanceAs (Decidable (timeSortedB l = true))

/-! ## Basic facts about `kfAt` and `TimeSorted` -/

theorem kfAt_cons_zero (k : Keyframe) (rest : List Keyframe) :
    kfAt (k :: rest) 0 = k := rfl

theorem kfAt_cons_succ (k : Keyframe) (rest : List Keyframe) (i : Nat) :
    kfAt (k :: rest) (i + 1) = kfAt rest i := rfl

theorem kfAt_mem {l : List Keyframe} {i : Nat} (h : i < l.length) :
    kfAt l i ∈ l := by
  unfold kfAt
  rw [List.getD_eq_getElem l _ h]
  exact List.getElem_mem h

theorem timeSorted_tail {k : Keyframe} {rest : List Keyframe}
    (hs : TimeSorted (k :: rest)) : TimeSorted rest := by
  cases rest with
  | nil => rfl
  | cons k2 r =>
      unfold TimeSorted timeSortedB at hs
      exact (Bool.and_eq_true _ _ |>.mp hs).2

theorem timeSorted_head_le {k : Keyframe} {rest : List Keyframe}
    (hs : TimeSorted (k :: rest)) :
    ∀ j, j < rest.length → k.time ≤ (kfAt rest j).time := by
  induction rest generalizing k with
  | nil => intro j hj; simp at hj
  | cons k2 r ih =>
      intro j hj
      have hk : k.time ≤ k2.time := by
        unfold TimeSorted timeSortedB at hs
        have := (Bool.and_eq_true _ _ |>.mp hs).1
        exact of_decide_eq_true this
      cases j with
      | zero => exact hk
      | succ j2 =>
          rw [kfAt_cons_succ]
          exact hk.trans (ih (timeSorted_tail hs) j2 (by simpa using hj))

theorem timeSorted_le {l : List Keyframe} (hs : TimeSorted l) :
    ∀ i j, i ≤ j → j < l.length → (kfAt l i).time ≤ (kfAt l j).time := by
  induction l with
  | nil => intro i j _ hj; simp at hj
  | cons k rest ih =>
      intro i j hij hj
      cases i with
      | zero =>
          cases j with
          | zero => exact le_refl _
          | succ j2 =>
              rw [kfAt_cons_zero, kfAt_cons_succ]
              exact timeSorted_head_le hs j2 (by simpa using hj)
      | succ i2 =>
          cases j with
          | zero => omega
          | succ j2 =>
              rw [kfAt_cons_succ, kfAt_cons_succ]
              exact ih (timeSorted_tail hs) i2 j2 (by omega) (by simpa using hj)

/-! ## Characterisation of `lastLeIdx` and `firstGeIdx` -/

theorem lastLeIdx_lt_length {qt : ℚ} :
    ∀ {l : List Keyframe} {j : Nat}, lastLeIdx qt l = some j → j < l.length := by
  intro l
  induction l with
  | nil => intro j h; simp [lastLeIdx] at h
  | cons k rest ih =>
      intro j h
      unfold lastLeIdx at h
      cases h2 : lastLeIdx qt rest with
      | some j2 =>
          rw [h2] at h
          have : j = j2 + 1 := by simpa using h.symm
          subst this
          simpa using ih h2
      | none =>
          rw [h2] at h
          by_cases hk : k.time ≤ qt
          · rw [if_pos hk] at h
            have : j = 0 := by simpa using h.symm
            subst this; simp
          · rw [if_neg hk] at h; exact absurd h (by simp)

theorem lastLeIdx_time_le {qt : ℚ} :
    ∀ {l : List Keyframe} {j : Nat}, lastLeIdx qt l = some j →
      (kfAt l j).time ≤ qt := by
  intro l
  induction l with
  | nil => intro j h; simp [lastLeIdx] at h
  | cons k rest ih =>
      intro j h
      unfold lastLeIdx at h
      cases h2 : lastLeIdx qt rest with
      | some j2 =>
          rw [h2] at h
          have : j = j2 + 1 := by simpa using h.symm
          subst this
          rw [kfAt_cons_succ]; exact ih h2
      | none =>
          rw [h2] at h
          by_cases hk : k.time ≤ qt
          · rw [if_pos hk] at h
            have : j = 0 := by simpa using h.symm
            subst this; simpa using hk
          · rw [if_neg hk] at h; exact absurd h (by simp)

theorem lastLeIdx_none {qt : ℚ} :
    ∀ {l : List Keyframe}, lastLeIdx qt l = none →
      ∀ i, i < l.length → qt < (kfAt l i).time := by
  intro l
  induction l with
  | nil => intro _ i hi; simp at hi
  | cons k rest ih =>
      intro h i hi
      unfold lastLeIdx at h
      cases h2 : lastLeIdx qt rest with
      | some j2 => rw [h2] at h; exact absurd h (by simp)
      | none =>
          rw [h2] at h
          by_cases hk : k.time ≤ qt
          · rw [if_pos hk] at h; exact absurd h (by simp)
          · cases i with
            | zero => simpa using not_le.mp hk
            | succ i2 =>
                rw [kfAt_cons_succ]
                exact ih h2 i2 (by simpa using hi)

theorem lastLeIdx_last {qt : ℚ} :
    ∀ {l : List Keyframe} {j : Nat}, lastLeIdx qt l = some j →
      ∀ i, j < i → i < l.length → qt < (kfAt l i).time := by
  intro l
  induction l with
  | nil => intro j h; simp [lastLeIdx] at h
  | cons k rest ih =>
      intro j h i hji hi
      unfold lastLeIdx at h
      cases h2 : lastLeIdx qt rest with
      | some j2 =>
          rw [h2] at h
          have : j = j2 + 1 := by simpa using h.symm
          subst this
          cases i with
          | zero => omega
          | succ i2 =>
              rw [kfAt_cons_succ]
              exact ih h2 i2 (by omega) (by simpa using hi)
      | none =>
          rw [h2] at h
          by_cases hk : k.time ≤ qt
          · rw [if_pos hk] at h
            have : j = 0 := by simpa using h.symm
            subst this
            cases i with
            | zero => omega
            | succ i2 =>
                rw [kfAt_cons_succ]
                exact lastLeIdx_none h2 i2 (by simpa using hi)
          · rw [if_neg hk] at h; exact absurd h (by simp)

theorem lastLeIdx_eq_of {qt : ℚ} {l : List Keyframe} {i : Nat}
    (hi : i < l.length) (h1 : (kfAt l i).time ≤ qt)
    (h2 : ∀ j, i < j → j < l.length → qt < (kfAt l j).time) :
    lastLeIdx qt l = some i := by
  cases h : lastLeIdx qt l with
  | none => exact absurd h1 (not_le.mpr (lastLeIdx_none h i hi))
  | some j =>
      have hj : j < l.length := lastLeIdx_lt_length h
      rcases Nat.lt_trichotomy i j with hlt | heq | hgt
      · exact absurd (lastLeIdx_time_le h) (not_le.mpr (h2 j hlt hj))
      · rw [heq]
      · exact absurd h1 (not_le.mpr (lastLeIdx_last h i hgt hi))

theorem firstGeIdx_lt_length {qt : ℚ} :
    ∀ {l : List Keyframe} {j : Nat}, firstGeIdx qt l = some j → j < l.length := by
  intro l
  induction l with
  | nil => intro j h; simp [firstGeIdx] at h
  | cons k rest ih =>
      intro j h
      unfold firstGeIdx at h
      by_cases hk : qt ≤ k.time
      · rw [if_pos hk] at h
        have : j = 0 := by simpa using h.symm
        subst this; simp
      · rw [if_neg hk] at h
        cases h2 : firstGeIdx qt rest with
        | some j2 =>
            rw [h2] at h
            have : j = j2 + 1 := by simpa using h.symm
            subst this; simpa using ih h2
        | none => rw [h2] at h; exact absurd h (by simp)

theorem firstGeIdx_time_ge {qt : ℚ} :
    ∀ {l : List Keyframe} {j : Nat}, firstGeIdx qt l = some j →
      qt ≤ (kfAt l j).time := by
  intro l
  induction l with
  | nil => intro j h; simp [firstGeIdx] at h
  | cons k rest ih =>
      intro j h
      unfold firstGeIdx at h
      by_cases hk : qt ≤ k.time
      · rw [if_pos hk] at h
        have : j = 0 := by simpa using h.symm
        subst this; simpa using hk
      · rw [if_neg hk] at h
        cases h2 : firstGeIdx qt rest with
        | some j2 =>
            rw [h2] at h
            have : j = j2 + 1 := by simpa using h.symm
            subst this
            rw [kfAt_cons_succ]; exact ih h2
        | none => rw [h2] at h; exact absurd h (by simp)

theorem firstGeIdx_none {qt : ℚ} :
    ∀ {l : List Keyframe}, firstGeIdx qt l = none →
      ∀ i, i < l.length → (kfAt l i).time < qt := by
  intro l
  induction l with
  | nil => intro _ i hi; simp at hi
  | cons k rest ih =>
      intro h i hi
      unfold firstGeIdx at h
      by_cases hk : qt ≤ k.time
      · rw [if_pos hk] at h; exact absurd h (by simp)
      · rw [if_neg hk] at h
        cases h2 : firstGeIdx qt rest with
        | some j2 => rw [h2] at h; exact absurd h (by simp)
        | none =>
            cases i with
            | zero => simpa using not_le.mp hk
            | succ i2 =>
                rw [kfAt_cons_succ]
                exact ih h2 i2 (by simpa using hi)

theorem firstGeIdx_first {qt : ℚ} :
    ∀ {l : List Keyframe} {j : Nat}, firstGeIdx qt l = some j →
      ∀ i, i < j → (kfAt l i).time < qt := by
  intro l
  induction l with
  | nil => intro j h; simp [firstGeIdx] at h
  | cons k rest ih =>
      intro j h i hij
      unfold firstGeIdx at h
      by_cases hk : qt ≤ k.time
      · rw [if_pos hk] at h
        have : j = 0 := by simpa using h.symm
        subst this; omega
      · rw [if_neg hk] at h
        cases h2 : firstGeIdx qt rest with
        | some j2 =>
            rw [h2] at h
            have : j = j2 + 1 := by simpa using h.symm
            subst this
            cases i with
            | zero => simpa using not_le.mp hk
            | succ i2 =>
                rw [kfAt_cons_succ]
                exact ih h2 i2 (by omega)
        | none => rw [h2] at h; exact absurd h (by simp)

theorem firstGeIdx_eq_of {qt : ℚ} {l : List Keyframe} {i : Nat}
    (hi : i < l.length) (h1 : qt ≤ (kfAt l i).time)
    (h2 : ∀ j, j < i → (kfAt l j).time < qt) :
    firstGeIdx qt l = some i := by
  cases h : firstGeIdx qt l with
  | none => exact absurd h1 (not_le.mpr (firstGeIdx_none h i hi))
  | some j =>
      rcases Nat.lt_trichotomy i j with hlt | heq | hgt
      · exact absurd h1 (not_le.mpr (firstGeIdx_first h i hlt))
      · rw [heq]
      · exact absurd (firstGeIdx_time_ge h) (not_le.mpr (h2 j hgt))

/-! ## Bridge from the scanning loop to the index characterisations -/

/-- The `-1` sentinel encoding of an optional index, as used by the loop. -/
def optIdxToInt : Option Nat → Int
  | some j => (j : Int)
  | none => -1

theorem findKeyframeIndicesGo_eq (qt : ℚ) (rest : List Keyframe) :
    ∀ (i : Nat) (bi ai : Int),
      findKeyframeIndicesGo qt i rest bi ai =
        ((match lastLeIdx qt rest with
          | some j => ((i + j : Nat) : Int)
          | none => bi),
         (if ai = -1 then
            match firstGeIdx qt rest with
            | some j => ((i + j : Nat) : Int)
            | none => -1
          else ai)) := by
  induction rest with
  | nil =>
      intro i bi ai
      by_cases hai : ai = -1
      · simp [findKeyframeIndicesGo, lastLeIdx, firstGeIdx, hai]
      · simp [findKeyframeIndicesGo, lastLeIdx, firstGeIdx, hai]
  | cons k rest2 ih =>
      intro i bi ai
      rw [show findKeyframeIndicesGo qt i (k :: rest2) bi ai =
            findKeyframeIndicesGo qt (i + 1) rest2
              (if k.time ≤ qt then (i : Int) else bi)
              (if qt ≤ k.time ∧ ai = -1 then (i : Int) else ai) from rfl]
      rw [ih (i + 1) _ _]
      have hfst : (match lastLeIdx qt rest2 with
            | some j => ((i + 1 + j : Nat) : Int)
            | none => if k.time ≤ qt then (i : Int) else bi) =
          (match lastLeIdx qt (k :: rest2) with
            | some j => ((i + j : Nat) : Int)
            | none => bi) := by
        cases h2 : lastLeIdx qt rest2 with
        | some j =>
            have h3 : lastLeIdx qt (k :: rest2) = some (j + 1) := by
              unfold lastLeIdx; rw [h2]
            rw [h3]
            have h4 : i + 1 + j = i + (j + 1) := by omega
            simp [h4]
        | none =>
            have h3 : lastLeIdx qt (k :: rest2) =
                if k.time ≤ qt then some 0 else none := by
              unfold lastLeIdx; rw [h2]
            rw [h3]
            by_cases hk : k.time ≤ qt <;> simp [hk]
      have hsnd : (if (if qt ≤ k.time ∧ ai = -1 then (i : Int) else ai) = -1 then
            (match firstGeIdx qt rest2 with
              | some j => ((i + 1 + j : Nat) : Int)
              | none => (-1 : Int))
          else (if qt ≤ k.time ∧ ai = -1 then (i : Int) else ai)) =
          (if ai = -1 then
            (match firstGeIdx qt (k :: rest2) with
              | some j => ((i + j : Nat) : Int)
              | none => (-1 : Int))
          else ai) := by
        by_cases hai : ai = -1
        · subst hai
          by_cases hk : qt ≤ k.time
          · have h3 : firstGeIdx qt (k :: rest2) = some 0 := by
              unfold firstGeIdx; rw [if_pos hk]
            have hne : (i : Int) ≠ -1 := by omega
            simp [h3, hk, hne]
          · have h3 : firstGeIdx qt (k :: rest2) =
                (firstGeIdx qt rest2).map (· + 1) := by
              simp only [firstGeIdx]; rw [if_neg hk]
            cases h4 : firstGeIdx qt rest2 with
            | some j =>
                have h5 : i + 1 + j = i + (j + 1) := by omega
                simp [h3, h4, hk, h5]
            | none => simp [h3, h4, hk]
        · simp [hai]
      rw [hfst, hsnd]

theorem findKeyframeIndices_eq (l : List Keyframe) (qt : ℚ) :
    findKeyframeIndices l qt =
      (optIdxToInt (lastLeIdx qt l), optIdxToInt (firstGeIdx qt l)) := by
  unfold findKeyframeIndices
  rw [findKeyframeIndicesGo_eq qt l 0 (-1) (-1)]
  refine Prod.ext ?_ ?_
  · cases h : lastLeIdx qt l with
    | some j => simp [optIdxToInt]
    | none => simp [optIdxToInt]
  · cases h : firstGeIdx qt l with
    | some j => simp [optIdxToInt]
    | none => simp [optIdxToInt]

/-! ## Reduction of `getCharacterProps` to the selected indices -/

theorem beforeIdx_lt_length {l : List Keyframe} (hne : l ≠ []) (qt : ℚ) :
    beforeIdx l qt < l.length := by
  unfold beforeIdx
  cases h : lastLeIdx qt l with
  | some j => simpa using lastLeIdx_lt_length h
  | none => simpa using List.length_pos.mpr hne

theorem afterIdx_lt_length {l : List Keyframe} (hne : l ≠ []) (qt : ℚ) :
    afterIdx l qt < l.length := by
  unfold afterIdx
  cases h : firstGeIdx qt l with
  | some j => simpa using firstGeIdx_lt_length h
  | none =>
      have := List.length_pos.mpr hne
      simp only [Option.getD_none]
      omega

theorem getElem?_eq_kfAt {l : List Keyframe} {i : Nat} (h : i < l.length) :
    l[i]? = some (kfAt l i) := by
  rw [List.getElem?_eq_getElem h]
  unfold kfAt
  rw [List.getD_eq_getElem l _ h]

/-- `getCharacterProps` with its `let` bindings expanded (definitional). -/
theorem getCharacterProps_def (l : List Keyframe) (qt : ℚ) :
    getCharacterProps l qt =
      match l[(if (findKeyframeIndices l qt).1 = -1 then 0
                else (findKeyframeIndices l qt).1).toNat]?,
            l[(if (findKeyframeIndices l qt).2 = -1 then (l.length : Int) - 1
                else (findKeyframeIndices l qt).2).toNat]? with
      | some before, some after =>
          if before.time = qt then some (toProps before)
          else if (if (findKeyframeIndices l qt).1 = -1 then 0
                    else (findKeyframeIndices l qt).1) =
                  (if (findKeyframeIndices l qt).2 = -1 then (l.length : Int) - 1
                    else (findKeyframeIndices l qt).2) then some (toProps before)
          else some
            { x := before.x + (after.x - before.x) *
                (if after.time - before.time = 0 then 0
                 else (qt - before.time) / (after.time - before.time))
              y := before.y + (after.y - before.y) *
                (if after.time - before.time = 0 then 0
                 else (qt - before.time) / (after.time - before.time))
              scale := before.scale + (after.scale - before.scale) *
                (if after.time - before.time = 0 then 0
                 else (qt - before.time) / (after.time - before.time))
              rotation := before.rotation + (after.rotation - before.rotation) *
                (if after.time - before.time = 0 then 0
                 else (qt - before.time) / (after.time - before.time)) }
      | _, _ => none := rfl

theorem getCharacterProps_at (l : List Keyframe) (qt : ℚ) (bN aN : Nat)
    (hb : bN < l.length) (ha : aN < l.length)
    (hbi : (if (findKeyframeIndices l qt).1 = -1 then 0
              else (findKeyframeIndices l qt).1) = (bN : Int))
    (hai : (if (findKeyframeIndices l qt).2 = -1 then (l.length : Int) - 1
              else (findKeyframeIndices l qt).2) = (aN : Int)) :
    getCharacterProps l qt =
      (if (kfAt l bN).time = qt then some (toProps (kfAt l bN))
       else if bN = aN then some (toProps (kfAt l bN))
       else if (kfAt l aN).time - (kfAt l bN).time = 0 then
         some (toProps (kfAt l bN))
       else some
         { x := (kfAt l bN).x + ((kfAt l aN).x - (kfAt l bN).x) *
             ((qt - (kfAt l bN).time) / ((kfAt l aN).time - (kfAt l bN).time))
           y := (kfAt l bN).y + ((kfAt l aN).y - (kfAt l bN).y) *
             ((qt - (kfAt l bN).time) / ((kfAt l aN).time - (kfAt l bN).time))
           scale := (kfAt l bN).scale + ((kfAt l aN).scale - (kfAt l bN).scale) *
             ((qt - (kfAt l bN).time) / ((kfAt l aN).time - (kfAt l bN).time))
           rotation := (kfAt l bN).rotation + ((kfAt l aN).rotation - (kfAt l bN).rotation) *
             ((qt - (kfAt l bN).time) / ((kfAt l aN).time - (kfAt l bN).time)) }) := by
  rw [getCharacterProps_def, hbi, hai]
  rw [Int.toNat_natCast, Int.toNat_natCast]
  rw [getElem?_eq_kfAt hb, getElem?_eq_kfAt ha]
  by_cases h1 : (kfAt l bN).time = qt
  · simp [h1]
  · by_cases h2 : bN = aN
    · simp [h1, h2]
    · by_cases h3 : (kfAt l aN).time - (kfAt l bN).time = 0
      · have h2i : ((bN : Int) = (aN : Int)) = False := by simp [h2]
        simp [h1, h2, h2i, h3, toProps]
      · have h2i : ((bN : Int) = (aN : Int)) = False := by simp [h2]
        simp [h1, h2, h2i, h3]

/-- The central reduction: for a non-empty list, `getCharacterProps` is the
exact-hit / same-index / zero-time-difference / linear-interpolation
case split over the selected `beforeIdx` and `afterIdx`. -/
theorem getCharacterProps_eq_interpAt (l : List Keyframe) (hne : l ≠ []) (qt : ℚ) :
    getCharacterProps l qt =
      (if (kfAt l (beforeIdx l qt)).time = qt then
         some (toProps (kfAt l (beforeIdx l qt)))
       else if beforeIdx l qt = afterIdx l qt then
         some (toProps (kfAt l (beforeIdx l qt)))
       else if (kfAt l (afterIdx l qt)).time - (kfAt l (beforeIdx l qt)).time = 0 then
         some (toProps (kfAt l (beforeIdx l qt)))
       else some
         { x := (kfAt l (beforeIdx l qt)).x +
             ((kfAt l (afterIdx l qt)).x - (kfAt l (beforeIdx l qt)).x) *
             ((qt - (kfAt l (beforeIdx l qt)).time) /
              ((kfAt l (afterIdx l qt)).time - (kfAt l (beforeIdx l qt)).time))
           y := (kfAt l (beforeIdx l qt)).y +
             ((kfAt l (afterIdx l qt)).y - (kfAt l (beforeIdx l qt)).y) *
             ((qt - (kfAt l (beforeIdx l qt)).time) /
              ((kfAt l (afterIdx l qt)).time - (kfAt l (beforeIdx l qt)).time))
           scale := (kfAt l (beforeIdx l qt)).scale +
             ((kfAt l (afterIdx l qt)).scale - (kfAt l (beforeIdx l qt)).scale) *
             ((qt - (kfAt l (beforeIdx l qt)).time) /
              ((kfAt l (afterIdx l qt)).time - (kfAt l (beforeIdx l qt)).time))
           rotation := (kfAt l (beforeIdx l qt)).rotation +
             ((kfAt l (afterIdx l qt)).rotation - (kfAt l (beforeIdx l qt)).rotation) *
             ((qt - (kfAt l (beforeIdx l qt)).time) /
              ((kfAt l (afterIdx l qt)).time - (kfAt l (beforeIdx l qt)).time)) }) := by
  apply getCharacterProps_at l qt (beforeIdx l qt) (afterIdx l qt)
    (beforeIdx_lt_length hne qt) (afterIdx_lt_length hne qt)
  · rw [findKeyframeIndices_eq]
    unfold beforeIdx
    cases h : lastLeIdx qt l with
    | some j => simp [optIdxToInt]
    | none => simp [optIdxToInt]
  · rw [findKeyframeIndices_eq]
    unfold afterIdx
    cases h : firstGeIdx qt l with
    | some j => simp [optIdxToInt]
    | none =>
        have hlen := List.length_pos.mpr hne
        simp only [optIdxToInt, Option.getD_none, if_true]
        omega

/-! ## Concrete lists used as witnesses and counterexamples -/

/-- A keyframe list that is not sorted by time: times `[5, 3]`. -/
def unsortedPair : List Keyframe := [⟨5, 0, 0, 0, 0⟩, ⟨3, 1, 1, 1, 1⟩]

/-- A keyframe list that is not sorted by time: times `[10, 5, 3]`. -/
def unsortedTriple : List Keyframe :=
  [⟨10, 1, 0, 0, 0⟩, ⟨5, 2, 0, 0, 0⟩, ⟨3, 0, 0, 0, 0⟩]

/-- A sorted keyframe list with two keyframes sharing time `5`. -/
def dupTimes : List Keyframe :=
  [⟨0, 1, 1, 1, 1⟩, ⟨5, 2, 3, 4, 6⟩, ⟨5, 7, 8, 9, 10⟩, ⟨8, 0, 0, 0, 0⟩]

/-- Two distinct keyframes at the same time `5`. -/
def dupPair : List Keyframe := [⟨5, 1, 1, 1, 1⟩, ⟨5, 2, 2, 2, 2⟩]

/-! ## Claim theorems -/

/-- Claim C5: for a clock state with positive duration and a nonnegative
tick delta, a tick sets `currentTime` to exactly `0` whenever
`currentTime + delta ≥ duration` (a hard reset regardless of overshoot),
and to `currentTime + delta` otherwise. -/
theorem tick_wrap (duration prevTime delta : ℚ)
    (_hdur : 0 < duration) (_hdelta : 0 ≤ delta) :
    (duration ≤ prevTime + delta → updateAnimation duration prevTime delta = 0) ∧
    (prevTime + delta < duration →
      updateAnimation duration prevTime delta = prevTime + delta) := by
  constructor
  · intro h
    simp only [updateAnimation]
    rw [if_pos h]
  · intro h
    simp only [updateAnimation]
    rw [if_neg (not_le.mpr h)]

/-- Witness for C5: the spec's scenario `currentTime = 118`,
`duration = 120`, `delta = 5` wraps to `0`, not to `3`. -/
theorem tick_wrap_witness :
    updateAnimation 120 118 5 = 0 ∧ updateAnimation 120 118 5 ≠ 3 := by
  have h := (tick_wrap 120 118 5 (by norm_num) (by norm_num)).1 (by norm_num)
  exact ⟨h, by rw [h]; norm_num⟩

/-- Claim C7: from a state with `0 ≤ currentTime ≤ duration`, the
seek-family controls compute `max 0 (currentTime - 10)`,
`min duration (currentTime + 10)` and `0`, and all three land in
`[0, duration]`. -/
theorem seek_clamp (duration currentTime : ℚ)
    (h0 : 0 ≤ currentTime) (h1 : currentTime ≤ duration) :
    (skipBack currentTime = max 0 (currentTime - 10) ∧
      0 ≤ skipBack currentTime ∧ skipBack currentTime ≤ duration) ∧
    (skipForward duration currentTime = min duration (currentTime + 10) ∧
      0 ≤ skipForward duration currentTime ∧
      skipForward duration currentTime ≤ duration) ∧
    (resetTime = 0 ∧ 0 ≤ resetTime ∧ resetTime ≤ duration) := by
  refine ⟨⟨rfl, le_max_left 0 _, max_le (h0.trans h1) (by linarith)⟩,
          ⟨rfl, le_min (h0.trans h1) (by linarith), min_le_left _ _⟩,
          rfl, le_refl 0, h0.trans h1⟩

/-- Witness for C7 at `currentTime = 50`, `duration = 120`. -/
theorem seek_clamp_witness :
    0 ≤ skipBack 50 ∧ skipBack 50 ≤ 120 ∧
    0 ≤ skipForward 120 50 ∧ skipForward 120 50 ≤ 120 := by
  have h := seek_clamp 120 50 (by norm_num) (by norm_num)
  exact ⟨h.1.2.1, h.1.2.2, h.2.1.2.1, h.2.1.2.2⟩

/-- Claim C8: on an empty keyframe list the interpolator produces the error
result (`none`, the out-of-bounds access of the source surfacing as an
explicit failure), never a default property record. -/
theorem empty_keyframes_fail (qt : ℚ) :
    getCharacterProps [] qt = none ∧
    ∀ p : InterpolatedProperties, getCharacterProps [] qt ≠ some p := by
  constructor
  · rfl
  · intro p h
    rw [show getCharacterProps [] qt = none from rfl] at h
    exact Option.noConfusion h

/-- A tick delivered while no animation-frame callback is scheduled leaves
the state untouched. -/
theorem deliverTick_no_pending {s : ClockState} (h : s.pendingTick = false)
    (duration delta : ℚ) : deliverTick duration delta s = s := by
  unfold deliverTick
  rw [h]
  simp

/-- Claim C9: after `pause`, any sequence of stray scheduled ticks leaves
`currentTime` unchanged (the cancellation makes every such delivery a
no-op), and the clock stays paused. -/
theorem pause_freeze (duration : ℚ) (deltas : List ℚ) (s : ClockState) :
    (deliverTicks duration deltas (pause s)).currentTime = s.currentTime ∧
    (deliverTicks duration deltas (pause s)).isPlaying = false := by
  have key : ∀ (ds : List ℚ) (t : ClockState), t.pendingTick = false →
      deliverTicks duration ds t = t := by
    intro ds
    induction ds with
    | nil => intro t _; rfl
    | cons d rest ih =>
        intro t ht
        show deliverTicks duration rest (deliverTick duration d t) = t
        rw [deliverTick_no_pending ht]
        exact ih t ht
  rw [key deltas (pause s) rfl]
  exact ⟨rfl, rfl⟩

/-- Claim C6: a single-keyframe list returns that keyframe's properties
unchanged for every query time. -/
theorem single_keyframe (k : Keyframe) (qt : ℚ) :
    getCharacterProps [k] qt = some (toProps k) := by
  have hne : ([k] : List Keyframe) ≠ [] := by simp
  have hb : beforeIdx [k] qt = 0 := by
    by_cases h : k.time ≤ qt <;> simp [beforeIdx, lastLeIdx, h]
  have ha : afterIdx [k] qt = 0 := by
    by_cases h : qt ≤ k.time <;> simp [afterIdx, firstGeIdx, h]
  rw [getCharacterProps_eq_interpAt [k] hne qt, hb, ha]
  by_cases h1 : (kfAt [k] 0).time = qt
  · rw [if_pos h1]
    rfl
  · rw [if_neg h1, if_pos rfl]
    rfl

/-- Claim C4: querying strictly below every keyframe time returns the first
keyframe's properties; querying strictly above every keyframe time returns
the last keyframe's properties (hold-at-boundary, no extrapolation). -/
theorem boundary_hold (l : List Keyframe) (qt : ℚ) (hne : l ≠ []) :
    ((∀ k ∈ l, qt < k.time) →
      getCharacterProps l qt = some (toProps (kfAt l 0))) ∧
    ((∀ k ∈ l, k.time < qt) →
      getCharacterProps l qt = some (toProps (kfAt l (l.length - 1)))) := by
  have hlen : 0 < l.length := List.length_pos.mpr hne
  constructor
  · intro hlow
    have hidx : ∀ i, i < l.length → qt < (kfAt l i).time :=
      fun i hi => hlow _ (kfAt_mem hi)
    have hL : lastLeIdx qt l = none := by
      cases h : lastLeIdx qt l with
      | none => rfl
      | some j =>
          exact absurd (lastLeIdx_time_le h)
            (not_le.mpr (hidx j (lastLeIdx_lt_length h)))
    have hF : firstGeIdx qt l = some 0 :=
      firstGeIdx_eq_of hlen (hidx 0 hlen).le
        (fun j hj => absurd hj (Nat.not_lt_zero j))
    have hb : beforeIdx l qt = 0 := by simp [beforeIdx, hL]
    have ha : afterIdx l qt = 0 := by simp [afterIdx, hF]
    rw [getCharacterProps_eq_interpAt l hne qt, hb, ha]
    rw [if_neg (ne_of_gt (hidx 0 hlen)), if_pos rfl]
  · intro hhigh
    have hidx : ∀ i, i < l.length → (kfAt l i).time < qt :=
      fun i hi => hhigh _ (kfAt_mem hi)
    have hL : lastLeIdx qt l = some (l.length - 1) :=
      lastLeIdx_eq_of (by omega) (hidx _ (by omega)).le
        (fun j hj1 hj2 => absurd hj2 (by omega))
    have hF : firstGeIdx qt l = none := by
      cases h : firstGeIdx qt l with
      | none => rfl
      | some j =>
          exact absurd (firstGeIdx_time_ge h)
            (not_le.mpr (hidx j (firstGeIdx_lt_length h)))
    have hb : beforeIdx l qt = l.length - 1 := by simp [beforeIdx, hL]
    have ha : afterIdx l qt = l.length - 1 := by simp [afterIdx, hF]
    rw [getCharacterProps_eq_interpAt l hne qt, hb, ha]
    rw [if_neg (ne_of_lt (hidx _ (by omega))), if_pos rfl]

/-- Witness for C4: on the demo list, querying at `150` (beyond the last
keyframe time `90`) returns the last keyframe's properties
`{x := 10, y := 50, scale := 1, rotation := 0}`. -/
theorem boundary_hold_witness :
    getCharacterProps exampleAnimations 150 = some ⟨10, 50, 1, 0⟩ := by
  have h := (boundary_hold exampleAnimations 150 (by decide)).2 (by decide)
  exact h.trans (by decide)

/-- Claim C10: for a non-empty list the interpolator always produces a
result (no `NaN`/undefined), and whenever the selected before/after
keyframes sit at distinct positions with equal time values the result is
the before keyframe's properties (the zero time difference never reaches
the division). -/
theorem interp_no_div_zero (l : List Keyframe) (qt : ℚ) (hne : l ≠ []) :
    (getCharacterProps l qt).isSome = true ∧
    (beforeIdx l qt ≠ afterIdx l qt →
      (kfAt l (afterIdx l qt)).time = (kfAt l (beforeIdx l qt)).time →
      getCharacterProps l qt = some (toProps (kfAt l (beforeIdx l qt)))) := by
  rw [getCharacterProps_eq_interpAt l hne qt]
  constructor
  · split_ifs <;> simp
  · intro hne2 heq
    by_cases h1 : (kfAt l (beforeIdx l qt)).time = qt
    · rw [if_pos h1]
    · rw [if_neg h1, if_neg hne2, if_pos (sub_eq_zero.mpr heq)]

/-- Witness for C10: two distinct keyframes sharing time `5`, queried at
`5`: the selection picks distinct positions (`beforeIdx = 1`,
`afterIdx = 0`) with equal times, and the result is the before keyframe's
properties. -/
theorem interp_no_div_zero_witness :
    getCharacterProps dupPair 5 = some ⟨2, 2, 2, 2⟩ := by
  have h := (interp_no_div_zero dupPair 5 (by decide)).2 (by decide) (by decide)
  exact h.trans (by decide)

/-- Claim C1: on a time-sorted list, for a query time strictly between the
times of adjacent keyframes `i` and `i + 1`, every output field is the
linear interpolation
`before.field + (after.field - before.field) * (qt - before.time) / (after.time - before.time)`. -/
theorem interpolation_linearity (l : List Keyframe) (qt : ℚ) (i : Nat)
    (hs : TimeSorted l) (hi : i + 1 < l.length)
    (h1 : (kfAt l i).time < qt) (h2 : qt < (kfAt l (i + 1)).time) :
    getCharacterProps l qt = some
      { x := (kfAt l i).x + ((kfAt l (i + 1)).x - (kfAt l i).x) *
          (qt - (kfAt l i).time) / ((kfAt l (i + 1)).time - (kfAt l i).time)
        y := (kfAt l i).y + ((kfAt l (i + 1)).y - (kfAt l i).y) *
          (qt - (kfAt l i).time) / ((kfAt l (i + 1)).time - (kfAt l i).time)
        scale := (kfAt l i).scale + ((kfAt l (i + 1)).scale - (kfAt l i).scale) *
          (qt - (kfAt l i).time) / ((kfAt l (i + 1)).time - (kfAt l i).time)
        rotation := (kfAt l i).rotation + ((kfAt l (i + 1)).rotation - (kfAt l i).rotation) *
          (qt - (kfAt l i).time) / ((kfAt l (i + 1)).time - (kfAt l i).time) } := by
  have hne : l ≠ [] := by
    intro h
    rw [h] at hi
    simp at hi
  have hL : lastLeIdx qt l = some i :=
    lastLeIdx_eq_of (by omega) h1.le
      (fun j hj1 hj2 =>
        lt_of_lt_of_le h2 (timeSorted_le hs (i + 1) j (by omega) hj2))
  have hF : firstGeIdx qt l = some (i + 1) :=
    firstGeIdx_eq_of hi h2.le
      (fun j hj =>
        lt_of_le_of_lt (timeSorted_le hs j i (by omega) (by omega)) h1)
  have hb : beforeIdx l qt = i := by simp [beforeIdx, hL]
  have ha : afterIdx l qt = i + 1 := by simp [afterIdx, hF]
  have hd : (kfAt l (i + 1)).time - (kfAt l i).time ≠ 0 :=
    sub_ne_zero.mpr (ne_of_gt (h1.trans h2))
  rw [getCharacterProps_eq_interpAt l hne qt, hb, ha]
  rw [if_neg (ne_of_lt h1), if_neg (by omega), if_neg hd]
  simp only [mul_div_assoc]

/-- Witness for C1: the spec's scenario — demo list, query time `45`
between the keyframes at `30` and `60` — yields
`x = 55`, `y = 60`, `scale = 1.1`, `rotation = 22.5`. -/
theorem interpolation_linearity_witness :
    getCharacterProps exampleAnimations 45 = some ⟨55, 60, 11/10, 45/2⟩ := by
  have h := interpolation_linearity exampleAnimations 45 1
    (by decide) (by decide) (by decide) (by decide)
  rw [h]
  have e1 : kfAt exampleAnimations 1 = ⟨30, 70, 50, 6/5, 0⟩ := rfl
  have e2 : kfAt exampleAnimations (1 + 1) = ⟨60, 40, 70, 1, 45⟩ := rfl
  rw [e1, e2]
  norm_num

/-- Claim C2 (amended: list sorted by time):
`before` is the keyframe with the greatest time `≤ queryTime`, keeping the
last such match in sequence order (every qualifying index `j` satisfies
`j ≤ beforeIdx` and has time `≤` the selected time), with fallback to the
first keyframe when no time qualifies; `after` is the keyframe with the
smallest time `≥ queryTime`, taking the first match in sequence order,
with fallback to the last keyframe. -/
theorem keyframe_selection (l : List Keyframe) (qt : ℚ)
    (hne : l ≠ []) (hs : TimeSorted l) :
    (beforeIdx l qt < l.length ∧ afterIdx l qt < l.length) ∧
    ((∃ i, i < l.length ∧ (kfAt l i).time ≤ qt) →
      (kfAt l (beforeIdx l qt)).time ≤ qt ∧
      ∀ j, j < l.length → (kfAt l j).time ≤ qt →
        (kfAt l j).time ≤ (kfAt l (beforeIdx l qt)).time ∧ j ≤ beforeIdx l qt) ∧
    ((∀ i, i < l.length → qt < (kfAt l i).time) → beforeIdx l qt = 0) ∧
    ((∃ i, i < l.length ∧ qt ≤ (kfAt l i).time) →
      qt ≤ (kfAt l (afterIdx l qt)).time ∧
      ∀ j, j < l.length → qt ≤ (kfAt l j).time →
        (kfAt l (afterIdx l qt)).time ≤ (kfAt l j).time ∧ afterIdx l qt ≤ j) ∧
    ((∀ i, i < l.length → (kfAt l i).time < qt) →
      afterIdx l qt = l.length - 1) := by
  refine ⟨⟨beforeIdx_lt_length hne qt, afterIdx_lt_length hne qt⟩, ?_, ?_, ?_, ?_⟩
  · rintro ⟨i, hi, hle⟩
    cases h : lastLeIdx qt l with
    | none => exact absurd hle (not_le.mpr (lastLeIdx_none h i hi))
    | some b =>
        have hb : beforeIdx l qt = b := by simp [beforeIdx, h]
        rw [hb]
        refine ⟨lastLeIdx_time_le h, ?_⟩
        intro j hj hjle
        have hjb : j ≤ b := by
          by_contra hgt
          push_neg at hgt
          exact absurd hjle (not_le.mpr (lastLeIdx_last h j hgt hj))
        exact ⟨timeSorted_le hs j b hjb (lastLeIdx_lt_length h), hjb⟩
  · intro hall
    have hL : lastLeIdx qt l = none := by
      cases h : lastLeIdx qt l with
      | none => rfl
      | some b =>
          exact absurd (lastLeIdx_time_le h)
            (not_le.mpr (hall b (lastLeIdx_lt_length h)))
    simp [beforeIdx, hL]
  · rintro ⟨i, hi, hge⟩
    cases h : firstGeIdx qt l with
    | none => exact absurd hge (not_le.mpr (firstGeIdx_none h i hi))
    | some a =>
        have ha : afterIdx l qt = a := by simp [afterIdx, h]
        rw [ha]
        refine ⟨firstGeIdx_time_ge h, ?_⟩
        intro j hj hjge
        have haj : a ≤ j := by
          by_contra hlt
          push_neg at hlt
          exact absurd hjge (not_le.mpr (firstGeIdx_first h j hlt))
        exact ⟨timeSorted_le hs a j haj hj, haj⟩
  · intro hall
    have hF : firstGeIdx qt l = none := by
      cases h : firstGeIdx qt l with
      | none => rfl
      | some a =>
          exact absurd (firstGeIdx_time_ge h)
            (not_le.mpr (hall a (firstGeIdx_lt_length h)))
    simp [afterIdx, hF]

/-- Witness for C2 (amended) on the demo list at query time `45`:
the selected before keyframe has time `≤ 45`, the selected after keyframe
has time `≥ 45`, and both indices are in range. -/
theorem keyframe_selection_witness :
    (kfAt exampleAnimations (beforeIdx exampleAnimations 45)).time ≤ 45 ∧
    45 ≤ (kfAt exampleAnimations (afterIdx exampleAnimations 45)).time ∧
    beforeIdx exampleAnimations 45 < exampleAnimations.length ∧
    afterIdx exampleAnimations 45 < exampleAnimations.length := by
  have h := keyframe_selection exampleAnimations 45 (by decide) (by decide)
  exact ⟨(h.2.1 ⟨0, by decide, by decide⟩).1,
         (h.2.2.2.1 ⟨2, by decide, by decide⟩).1, h.1.1, h.1.2⟩

/-- Counterexample to C2 as stated (for lists that are not pre-sorted):
on the unsorted list with times `[5, 3]` and query time `6`, the scan
selects index `1` (time `3`) as `before`, although index `0` qualifies
(`5 ≤ 6`) and carries the strictly greater time — so the selected
keyframe does not have the greatest qualifying time. -/
theorem keyframe_selection_counterexample :
    (findKeyframeIndices unsortedPair 6).1 = 1 ∧
    beforeIdx unsortedPair 6 = 1 ∧
    (kfAt unsortedPair 1).time = 3 ∧
    (kfAt unsortedPair 0).time = 5 ∧
    (kfAt unsortedPair 0).time ≤ 6 ∧
    (kfAt unsortedPair 1).time < (kfAt unsortedPair 0).time := by decide

/-- Claim C3 (amended: list sorted by time): querying at the exact time of
a keyframe in the list returns, unchanged, the properties of the keyframe
the before-selection resolves to — the last one in sequence among those
sharing that time (everything after it has a strictly greater time). -/
theorem exact_hit (l : List Keyframe) (qt : ℚ) (hs : TimeSorted l)
    (i : Nat) (hi : i < l.length) (ht : (kfAt l i).time = qt) :
    (kfAt l (beforeIdx l qt)).time = qt ∧
    (∀ j, beforeIdx l qt < j → j < l.length → qt < (kfAt l j).time) ∧
    getCharacterProps l qt = some (toProps (kfAt l (beforeIdx l qt))) := by
  have hne : l ≠ [] := by
    intro h
    rw [h] at hi
    simp at hi
  cases h : lastLeIdx qt l with
  | none => exact absurd ht.le (not_le.mpr (lastLeIdx_none h i hi))
  | some b =>
      have hb : beforeIdx l qt = b := by simp [beforeIdx, h]
      have hble := lastLeIdx_time_le h
      have hblt := lastLeIdx_lt_length h
      have hib : i ≤ b := by
        by_contra hgt
        push_neg at hgt
        exact absurd ht.le (not_le.mpr (lastLeIdx_last h i hgt hi))
      have htb : (kfAt l b).time = qt := by
        refine le_antisymm hble ?_
        rw [← ht]
        exact timeSorted_le hs i b hib hblt
      rw [hb]
      refine ⟨htb, fun j hj hjl => lastLeIdx_last h j hj hjl, ?_⟩
      rw [getCharacterProps_eq_interpAt l hne qt, hb, if_pos htb]

/-- Witness for C3 (amended) on a sorted list with two keyframes sharing
time `5`: querying at `5` returns the later of the two, unchanged. -/
theorem exact_hit_witness :
    getCharacterProps dupTimes 5 = some ⟨7, 8, 9, 10⟩ := by
  have h := exact_hit dupTimes 5 (by decide) 1 (by decide) (by decide)
  exact h.2.2.trans (by decide)

/-- Counterexample to C3 as stated (for lists that are not pre-sorted):
on the unsorted list with times `[10, 5, 3]`, querying at `5` — the exact
time of the keyframe at index `1` — returns `x = 2/7`, which is not the
property record of any keyframe in the list, so no keyframe's properties
are returned unchanged. -/
theorem exact_hit_counterexample :
    1 < unsortedTriple.length ∧
    (kfAt unsortedTriple 1).time = 5 ∧
    getCharacterProps unsortedTriple 5 = some ⟨2/7, 0, 0, 0⟩ ∧
    ∀ k ∈ unsortedTriple, toProps k ≠ ⟨2/7, 0, 0, 0⟩ := by
  refine ⟨by decide, by decide, ?_, ?_⟩
  · have hb : beforeIdx unsortedTriple 5 = 2 := by decide
    have ha : afterIdx unsortedTriple 5 = 0 := by decide
    rw [getCharacterProps_eq_interpAt unsortedTriple (by decide) 5, hb, ha]
    have e0 : kfAt unsortedTriple 0 = ⟨10, 1, 0, 0, 0⟩ := rfl
    have e2 : kfAt unsortedTriple 2 = ⟨3, 0, 0, 0, 0⟩ := rfl
    rw [e0, e2]
    norm_num
  · intro k hk
    have hcases : k = ⟨10, 1, 0, 0, 0⟩ ∨ k = ⟨5, 2, 0, 0, 0⟩ ∨ k = ⟨3, 0, 0, 0, 0⟩ := by
      simpa [unsortedTriple] using hk
    rcases hcases with h | h | h <;> subst h <;>
      simp [toProps] <;> intro hx <;> norm_num at hx
